import Mathlib

/-!
Verification of the Ringer operator-console state-synchronization core.

The definitions below are a shallow embedding of the TypeScript sources under
`src/ui/src` (App.tsx, components/OverviewTab.tsx, components/SourcesTab.tsx,
components/AnalyzersTab.tsx, components/ResultsTab.tsx, hooks/useCrawlData.ts)
together with the unnamed revisions under `src/unnamed`.  JavaScript numbers
that are only stored, compared and copied (scores, weights, worker counts) are
modelled as `Int`; JS arrays and objects that the code may alias are modelled
with an explicit heap of allocated cells so that copy-on-write versus in-place
mutation is observable.  React `useState` setters are modelled as functional
updates of explicit component-state records, and `useEffect` dependency
comparison as equality of the dependency value with the value at the previous
committed render.
-/

namespace Ringer

/-- Kind of a toast notification emitted through the notification queue. -/
inductive ToastKind where
  | success
  | error
deriving DecidableEq, Repr

/-- A toast notification.  Modelled from the spec: the `useToast` hook itself is
not among the supplied sources (only its call sites are); per the spec the
Notification Queue holds transient success/error notices, so a notice is a kind
plus the title and message passed to `showError` / `showSuccess`. -/
structure Toast where
  kind : ToastKind
  title : String
  message : String
deriving DecidableEq, Repr

/-- A weighted keyword term of the keyword analyzer (`types` / AnalyzersTab). -/
structure WeightedKeyword where
  keyword : String
  weight : Int
deriving DecidableEq, Repr

/-- A weighted regex term; `flags = 2` encodes case-insensitive, `0` encodes
case-sensitive (AnalyzersTab `handleAddTerm`). -/
structure WeightedRegex where
  regex : String
  weight : Int
  flags : Int
deriving DecidableEq, Repr

/-- Value-level analyzer specification, as carried inside a `CrawlSpec` payload
(`analyzer_specs` entries).  Payload fields that are absent on a given analyzer
are `none`, mirroring the optional fields of the TS `AnalyzerSpec` type. -/
structure AnalyzerV where
  name : String
  composite_weight : Int
  keywords : Option (List WeightedKeyword)
  regexes : Option (List WeightedRegex)
  prompt : Option String
  text_inputs : Option (List String)
  field_map : Option (List (String × String))
deriving DecidableEq, Repr

/-- Value-level crawl specification (the TS `CrawlSpec` shape used by
OverviewTab / App). -/
structure CrawlSpecV where
  name : String
  seeds : List String
  analyzer_specs : List AnalyzerV
  worker_count : Int
  domain_blacklist : List String
deriving DecidableEq, Repr

/-- One entry of the server-owned state history of a crawl. -/
structure StateHistoryEntry where
  state : String
  timestamp : String
deriving DecidableEq, Repr

/-- Server-owned crawl status (read-only for the UI). -/
structure CrawlStatusV where
  crawl_id : String
  current_state : String
  state_history : List StateHistoryEntry
  crawled_count : Int
  processed_count : Int
  error_count : Int
  frontier_size : Int
deriving DecidableEq, Repr

/-- A roster entry: one crawl status paired with the specification that
produced it (the TS `CrawlInfo` shape). -/
structure CrawlInfoV where
  crawl_status : CrawlStatusV
  crawl_spec : CrawlSpecV
deriving DecidableEq, Repr

/-! ## OverviewTab: submission validation (`handleSubmitCrawl`)

Embedding of the `handleSubmitCrawl` of the OverviewTab revision that the
current `App.tsx` instantiates (the revision receiving `existingCrawls`,
OverviewTab.tsx lines 164-200).  The component state gathers the pieces of
observable state the handler can touch: the emitted toasts, the list of
`createCrawl` network requests issued so far, the `loading` flag and the draft
itself. -/

/-- Model of JavaScript `String.prototype.trim`: strip leading and trailing
whitespace (structural definition over the character list, so that concrete
instances evaluate). -/
def jsTrim (s : String) : String :=
  ⟨((s.data.dropWhile Char.isWhitespace).reverse.dropWhile Char.isWhitespace).reverse⟩

/-- Model of JavaScript `String.prototype.toLowerCase` (per-character
lowering, structural over the character list). -/
def jsToLower (s : String) : String :=
  ⟨s.data.map Char.toLower⟩

/-- Observable state of the OverviewTab submission path. -/
structure OverviewState where
  toasts : List Toast
  createCalls : List CrawlSpecV
  loading : Bool
  draft : Option CrawlSpecV
deriving DecidableEq, Repr

/-- The duplicate-name test of `handleSubmitCrawl`: some roster entry whose
specification name equals the draft name after `toLowerCase`. -/
def isDuplicateName (existingCrawls : List CrawlInfoV) (cs : CrawlSpecV) : Bool :=
  existingCrawls.any (fun c => jsToLower c.crawl_spec.name == jsToLower cs.name)

/-- Synchronous prefix of `handleSubmitCrawl` (OverviewTab, revision with the
duplicate check): each failed validation emits one error toast and returns
without touching anything else; once every validation passes, `loading` is set
and exactly one `createCrawl` request is issued. -/
def handleSubmitCrawl (existingCrawls : List CrawlInfoV) (st : OverviewState) :
    OverviewState :=
  match st.draft with
  | none =>
    { st with toasts := st.toasts ++
        [⟨ToastKind.error, "Validation Error", "Crawl name is required"⟩] }
  | some cs =>
    if jsTrim cs.name = "" then
      { st with toasts := st.toasts ++
          [⟨ToastKind.error, "Validation Error", "Crawl name is required"⟩] }
    else if isDuplicateName existingCrawls cs then
      { st with toasts := st.toasts ++
          [⟨ToastKind.error, "Validation Error",
            "A crawl with this name already exists. Please choose a different name."⟩] }
    else if cs.seeds.isEmpty then
      { st with toasts := st.toasts ++
          [⟨ToastKind.error, "Validation Error", "At least one seed URL is required"⟩] }
    else if cs.worker_count < 1 ∨ cs.worker_count > 16 then
      { st with toasts := st.toasts ++
          [⟨ToastKind.error, "Validation Error", "Worker count must be between 1 and 16"⟩] }
    else
      { st with loading := true, createCalls := st.createCalls ++ [cs] }

/-- A draft fails basic submission validation: empty (or whitespace-only)
name, empty seeds, or worker count outside `[1, 16]`. -/
def invalidDraft (cs : CrawlSpecV) : Prop :=
  jsTrim cs.name = "" ∨ cs.seeds = [] ∨ cs.worker_count < 1 ∨ cs.worker_count > 16

instance (cs : CrawlSpecV) : Decidable (invalidDraft cs) := by
  unfold invalidDraft; infer_instance

/-- Concrete roster entry used by witnesses. -/
def sampleInfo : CrawlInfoV :=
  ⟨⟨"c1", "CREATED", [⟨"CREATED", "2026-01-01T00:00:00Z"⟩], 0, 0, 0, 0⟩,
   ⟨"alpha", ["https://a.example"], [], 2, []⟩⟩

/-- Concrete draft with an empty name, used by the C2 witness. -/
def sampleInvalidDraft : CrawlSpecV := ⟨"", ["https://a.example"], [], 4, []⟩

/-- Concrete draft duplicating `sampleInfo`'s name case-insensitively. -/
def sampleDupDraft : CrawlSpecV := ⟨"ALPHA", ["https://b.example"], [], 2, []⟩

/-! ## ResultsTab: summary sorting (`sortRecords`)

Embedding of `sortRecords` of ResultsTab.tsx (lines 76-95).  The comparator
compares the value under `sortConfig.key` (lower-cased when both values are
strings), returning -1/1/0 flipped by the direction.  ECMAScript 2019 requires
`Array.prototype.sort` to be stable, and with a consistent comparator the
output is exactly the stable sort by the comparator; it is modelled here by a
stable insertion sort parameterised by the place-before test
`comparator(a, b) <= 0`. -/

/-- A result row (TS `CrawlRecordSummary`): id, url and score. -/
structure RecordSummaryV where
  id : String
  url : String
  score : Int
deriving DecidableEq, Repr

/-- The sort keys the ResultsTab table offers (`id`, `url`, `score` columns). -/
inductive SortKey where
  | id
  | url
  | score
deriving DecidableEq, Repr

/-- Sort direction of a `SortConfig`. -/
inductive SortDirection where
  | asc
  | desc
deriving DecidableEq, Repr

/-- The TS `SortConfig` value `{ key, direction }`. -/
structure SortConfigV where
  key : SortKey
  direction : SortDirection
deriving DecidableEq, Repr

/-- The `aValue < bValue` test of the comparator, with string values
lower-cased first exactly as the source does. -/
def keyLt (k : SortKey) (a b : RecordSummaryV) : Prop :=
  match k with
  | SortKey.id => jsToLower a.id < jsToLower b.id
  | SortKey.url => jsToLower a.url < jsToLower b.url
  | SortKey.score => a.score < b.score

instance (k : SortKey) (a b : RecordSummaryV) : Decidable (keyLt k a b) := by
  cases k <;> (unfold keyLt; infer_instance)

/-- The numeric comparator of `sortRecords`: -1 when `aValue < bValue`
(flipped under `desc`), 1 when `aValue > bValue` (flipped under `desc`),
0 otherwise. -/
def jsCompare (cfg : SortConfigV) (a b : RecordSummaryV) : Int :=
  if keyLt cfg.key a b then (if cfg.direction = SortDirection.asc then -1 else 1)
  else if keyLt cfg.key b a then (if cfg.direction = SortDirection.asc then 1 else -1)
  else 0

/-- Place-before test induced by the comparator: `a` may sit before `b`
exactly when the comparator does not order `a` strictly after `b`. -/
def jsSortLe (cfg : SortConfigV) (a b : RecordSummaryV) : Bool :=
  decide (jsCompare cfg a b ≤ 0)

/-- Stable insertion of `x` into `l`: `x` goes in front of the first element
it need not follow, so equal elements keep their original relative order. -/
def insertLe (le : α → α → Bool) (x : α) : List α → List α
  | [] => [x]
  | y :: ys => if le x y then x :: y :: ys else y :: insertLe le x ys

/-- Stable sort by the place-before test `le` (insertion sort). -/
def stableSort (le : α → α → Bool) : List α → List α
  | [] => []
  | x :: xs => insertLe le x (stableSort le xs)

/-- `sortRecords` of ResultsTab: a stable sort of the summary list by the
configured comparator (the source copies the array and calls the stable
`Array.prototype.sort`). -/
def sortRecords (cfg : SortConfigV) (rs : List RecordSummaryV) : List RecordSummaryV :=
  stableSort (jsSortLe cfg) rs

/-! ## Draft Configuration Store: heap model of the spec mutations

The draft editors (OverviewTab, SourcesTab, AnalyzersTab) update the draft
through `onCrawlSpecChange`, always building new arrays/objects with spread
(`[...xs]`, `{...obj}`) and never assigning into an existing one.  To make
"mutates in place" versus "copy-on-write" observable, JS arrays and analyzer
objects are modelled as cells of an explicit heap addressed by allocation
order; object/array literals allocate fresh cells and no operation ever
overwrites an existing cell.  A `SpecObj` is the draft object itself: its
`seeds`, `analyzer_specs` and `domain_blacklist` fields hold heap addresses,
exactly as the JS object holds references. -/

/-- An analyzer object as held in the draft: payload arrays (`keywords`,
`regexes`) are heap references; `prompt_input.prompt`, `text_inputs` and
`field_map` are carried inline since the handlers only ever replace them
wholesale. -/
structure AnalyzerObj where
  name : String
  composite_weight : Int
  keywords : Option Nat
  regexes : Option Nat
  prompt : Option String
  text_inputs : Option (List String)
  field_map : Option (List (String × String))
deriving DecidableEq, Repr

/-- A heap cell: a string array, a keyword array, a regex array, an analyzer
object, or the `analyzer_specs` array of references to analyzer objects. -/
inductive Obj where
  | strs (xs : List String)
  | kwArr (xs : List WeightedKeyword)
  | rxArr (xs : List WeightedRegex)
  | analyzer (a : AnalyzerObj)
  | specArr (xs : List Nat)
deriving DecidableEq, Repr

/-- The heap: address `a` is the cell at index `a`; allocation appends. -/
abbrev Heap := List Obj

/-- Allocate a fresh cell, returning the new heap and the new address. -/
def alloc (h : Heap) (o : Obj) : Heap × Nat := (h ++ [o], h.length)

/-- Dereference a string-array cell (empty list when absent or wrong-typed;
the handlers only ever call this on live string-array addresses). -/
def lookupStrs (h : Heap) (a : Nat) : List String :=
  match h[a]? with
  | some (Obj.strs xs) => xs
  | _ => []

/-- Dereference a keyword-array cell. -/
def lookupKw (h : Heap) (a : Nat) : List WeightedKeyword :=
  match h[a]? with
  | some (Obj.kwArr xs) => xs
  | _ => []

/-- Dereference a regex-array cell. -/
def lookupRx (h : Heap) (a : Nat) : List WeightedRegex :=
  match h[a]? with
  | some (Obj.rxArr xs) => xs
  | _ => []

/-- Dereference an `analyzer_specs`-array cell. -/
def lookupSpecArr (h : Heap) (a : Nat) : List Nat :=
  match h[a]? with
  | some (Obj.specArr xs) => xs
  | _ => []

/-- Dereference an analyzer-object cell. -/
def lookupAnalyzer (h : Heap) (a : Nat) : AnalyzerObj :=
  match h[a]? with
  | some (Obj.analyzer x) => x
  | _ => ⟨"", 1, none, none, none, none, none⟩

/-- The draft object (TS `CrawlSpec`): array-valued fields are references. -/
structure SpecObj where
  name : String
  seeds : Nat
  analyzer_specs : Nat
  worker_count : Int
  domain_blacklist : Nat
deriving DecidableEq, Repr

/-- Deep value of an analyzer object: dereference its payload arrays. -/
def analyzerView (h : Heap) (a : AnalyzerObj) : AnalyzerV :=
  ⟨a.name, a.composite_weight, a.keywords.map (lookupKw h), a.regexes.map (lookupRx h),
   a.prompt, a.text_inputs, a.field_map⟩

/-- Deep value of a draft object: the fully dereferenced `CrawlSpec`. -/
def specView (h : Heap) (s : SpecObj) : CrawlSpecV :=
  ⟨s.name, lookupStrs h s.seeds,
   (lookupSpecArr h s.analyzer_specs).map (fun ad => analyzerView h (lookupAnalyzer h ad)),
   s.worker_count, lookupStrs h s.domain_blacklist⟩

/-- An optional payload address points inside the heap. -/
def optAddrWf (h : Heap) : Option Nat → Prop
  | none => True
  | some k => k < h.length

instance (h : Heap) (o : Option Nat) : Decidable (optAddrWf h o) := by
  cases o <;> (unfold optAddrWf; infer_instance)

/-- All addresses reachable from a draft object are live in the heap. -/
def SpecWf (h : Heap) (s : SpecObj) : Prop :=
  s.seeds < h.length ∧ s.domain_blacklist < h.length ∧ s.analyzer_specs < h.length ∧
  ∀ ad ∈ lookupSpecArr h s.analyzer_specs, ad < h.length ∧
    optAddrWf h (lookupAnalyzer h ad).keywords ∧
    optAddrWf h (lookupAnalyzer h ad).regexes

instance (h : Heap) (s : SpecObj) : Decidable (SpecWf h s) := by
  unfold SpecWf; infer_instance

/-- `h'` extends `h`: the operations only ever allocate, never overwrite. -/
def HeapExtends (h h' : Heap) : Prop := ∃ t, h' = h ++ t

/-- `handleNameChange` (OverviewTab): `{ ...crawlSpec, name }` — a fresh spec
object sharing every array reference; nothing on the heap changes. -/
def handleNameChange (h : Heap) (s : Option SpecObj) (name : String) :
    Heap × Option SpecObj :=
  match s with
  | none => (h, none)
  | some cs => (h, some { cs with name := name })

/-- `handleWorkerCountChange` (OverviewTab): `{ ...crawlSpec, worker_count }`. -/
def handleWorkerCountChange (h : Heap) (s : Option SpecObj) (wc : Int) :
    Heap × Option SpecObj :=
  match s with
  | none => (h, none)
  | some cs => (h, some { cs with worker_count := wc })

/-- `handleAddUrl` (SourcesTab): `seeds: [...crawlSpec.seeds, '']` — allocate
the copied-and-extended array, leave the old one untouched. -/
def handleAddUrl (h : Heap) (s : Option SpecObj) : Heap × Option SpecObj :=
  match s with
  | none => (h, none)
  | some cs =>
    let p := alloc h (Obj.strs (lookupStrs h cs.seeds ++ [""]))
    (p.1, some { cs with seeds := p.2 })

/-- `handleUrlChange` (SourcesTab): copy the seeds array, overwrite slot
`index` in the copy (the UI only passes indices below the length), publish the
copy. -/
def handleUrlChange (h : Heap) (s : Option SpecObj) (index : Nat) (url : String) :
    Heap × Option SpecObj :=
  match s with
  | none => (h, none)
  | some cs =>
    let p := alloc h (Obj.strs ((lookupStrs h cs.seeds).set index url))
    (p.1, some { cs with seeds := p.2 })

/-- `handleRemoveUrl` (SourcesTab): `seeds.filter((_, i) => i !== index)`,
i.e. drop the element at position `index`. -/
def handleRemoveUrl (h : Heap) (s : Option SpecObj) (index : Nat) :
    Heap × Option SpecObj :=
  match s with
  | none => (h, none)
  | some cs =>
    let p := alloc h (Obj.strs ((lookupStrs h cs.seeds).eraseIdx index))
    (p.1, some { cs with seeds := p.2 })

/-- `handleAddSearchUrls` (SourcesTab): keep the input URLs not already in the
seeds (`!crawlSpec.seeds.includes(url)`), append them to a fresh copy. -/
def handleAddSearchUrls (h : Heap) (s : Option SpecObj) (urls : List String) :
    Heap × Option SpecObj :=
  match s with
  | none => (h, none)
  | some cs =>
    let seeds := lookupStrs h cs.seeds
    let uniqueUrls := urls.filter (fun u => ¬ seeds.contains u)
    let p := alloc h (Obj.strs (seeds ++ uniqueUrls))
    (p.1, some { cs with seeds := p.2 })

/-- `getOrCreateAnalyzer` (AnalyzersTab): the existing analyzer object for
`name` if present, else a strategy-specific default (whose empty payload
arrays are freshly allocated, as the JS object literal does); the store itself
is not touched. -/
def getOrCreateAnalyzer (h : Heap) (cs : SpecObj) (name : String) :
    Heap × AnalyzerObj :=
  match ((lookupSpecArr h cs.analyzer_specs).map (lookupAnalyzer h)).find?
      (fun a => a.name == name) with
  | some a => (h, a)
  | none =>
    if name = "KeywordScoreAnalyzer" then
      let pk := alloc h (Obj.kwArr [])
      let pr := alloc pk.1 (Obj.rxArr [])
      (pr.1, ⟨name, 1, some pk.2, some pr.2, none, none, none⟩)
    else if name = "DhLlmScoreAnalyzer" then
      (h, ⟨name, 1, none, none, some "", some [], some [("Score", "string")]⟩)
    else
      (h, ⟨name, 1, none, none, none, none, none⟩)

/-- `updateAnalyzer` (AnalyzersTab): allocate the updated analyzer object;
copy the `analyzer_specs` array with the matching slot replaced (`findIndex`
on the analyzer name) or the new object appended; publish the copy. -/
def updateAnalyzer (h : Heap) (s : Option SpecObj) (ua : AnalyzerObj) :
    Heap × Option SpecObj :=
  match s with
  | none => (h, none)
  | some cs =>
    let arr := lookupSpecArr h cs.analyzer_specs
    let pa := alloc h (Obj.analyzer ua)
    match arr.findIdx? (fun ad => (lookupAnalyzer h ad).name == ua.name) with
    | some k =>
      let ps := alloc pa.1 (Obj.specArr (arr.set k pa.2))
      (ps.1, some { cs with analyzer_specs := ps.2 })
    | none =>
      let ps := alloc pa.1 (Obj.specArr (arr ++ [pa.2]))
      (ps.1, some { cs with analyzer_specs := ps.2 })

/-- The `newTerm` editor value of AnalyzersTab (TS field `type` is spelled
`ttype` here). -/
structure NewTermV where
  ttype : String
  term : String
  matchCase : Bool
  weight : Int
deriving DecidableEq, Repr

/-- `handleAddTerm` (AnalyzersTab): no-op on a blank term; otherwise append a
keyword or regex (flags 0 when match-case, 2 when case-insensitive) to a fresh
copy of the payload array of the keyword analyzer and commit it through
`updateAnalyzer` (which also guards the null draft). -/
def handleAddTerm (h : Heap) (s : Option SpecObj) (t : NewTermV) :
    Heap × Option SpecObj :=
  if jsTrim t.term = "" then (h, s)
  else
    match s with
    | none => (h, none)
    | some cs =>
      let pa := getOrCreateAnalyzer h cs "KeywordScoreAnalyzer"
      if t.ttype = "Keyword" then
        let kws := (pa.2.keywords.map (lookupKw pa.1)).getD []
        let pk := alloc pa.1 (Obj.kwArr (kws ++ [⟨t.term, t.weight⟩]))
        updateAnalyzer pk.1 (some cs) { pa.2 with keywords := some pk.2 }
      else
        let rxs := (pa.2.regexes.map (lookupRx pa.1)).getD []
        let pr := alloc pa.1
          (Obj.rxArr (rxs ++ [⟨t.term, t.weight, if t.matchCase then 0 else 2⟩]))
        updateAnalyzer pr.1 (some cs) { pa.2 with regexes := some pr.2 }

/-- `handleRemoveTerm` (AnalyzersTab): drop the term at `index` from a fresh
copy of the keyword (resp. regex) payload array. -/
def handleRemoveTerm (h : Heap) (s : Option SpecObj) (ttype : String) (index : Nat) :
    Heap × Option SpecObj :=
  match s with
  | none => (h, none)
  | some cs =>
    let pa := getOrCreateAnalyzer h cs "KeywordScoreAnalyzer"
    if ttype = "keyword" then
      let kws := (pa.2.keywords.map (lookupKw pa.1)).getD []
      let pk := alloc pa.1 (Obj.kwArr (kws.eraseIdx index))
      updateAnalyzer pk.1 (some cs) { pa.2 with keywords := some pk.2 }
    else
      let rxs := (pa.2.regexes.map (lookupRx pa.1)).getD []
      let pr := alloc pa.1 (Obj.rxArr (rxs.eraseIdx index))
      updateAnalyzer pr.1 (some cs) { pa.2 with regexes := some pr.2 }

/-- `handlePromptChange` (AnalyzersTab): replace `prompt_input` wholesale on
the DH-LLM analyzer. -/
def handlePromptChange (h : Heap) (s : Option SpecObj) (prompt : String) :
    Heap × Option SpecObj :=
  match s with
  | none => (h, none)
  | some cs =>
    let pa := getOrCreateAnalyzer h cs "DhLlmScoreAnalyzer"
    updateAnalyzer pa.1 (some cs) { pa.2 with prompt := some prompt }

/-- `handleCompositeWeightChange` (AnalyzersTab). -/
def handleCompositeWeightChange (h : Heap) (s : Option SpecObj)
    (name : String) (weight : Int) : Heap × Option SpecObj :=
  match s with
  | none => (h, none)
  | some cs =>
    let pa := getOrCreateAnalyzer h cs name
    updateAnalyzer pa.1 (some cs) { pa.2 with composite_weight := weight }

/-- JS object property assignment on the (inline) field map: replace the value
under an existing key in place in the copy, else append the binding. -/
def assocSet (m : List (String × String)) (k v : String) : List (String × String) :=
  if m.any (fun p => p.1 == k) then
    m.map (fun p => if p.1 == k then (p.1, v) else p)
  else m ++ [(k, v)]

/-- `handleAddOutputField` (AnalyzersTab): no-op on a blank field name, else
set the binding in a copy of `field_map` and commit. -/
def handleAddOutputField (h : Heap) (s : Option SpecObj) (fname ftype : String) :
    Heap × Option SpecObj :=
  if jsTrim fname = "" then (h, s)
  else
    match s with
    | none => (h, none)
    | some cs =>
      let pa := getOrCreateAnalyzer h cs "DhLlmScoreAnalyzer"
      let newMap := assocSet (pa.2.field_map.getD []) fname ftype
      updateAnalyzer pa.1 (some cs) { pa.2 with field_map := some newMap }

/-- `handleRemoveOutputField` (AnalyzersTab): `delete` of the binding in a
copy of `field_map`. -/
def handleRemoveOutputField (h : Heap) (s : Option SpecObj) (fname : String) :
    Heap × Option SpecObj :=
  match s with
  | none => (h, none)
  | some cs =>
    let pa := getOrCreateAnalyzer h cs "DhLlmScoreAnalyzer"
    let newMap := (pa.2.field_map.getD []).filter (fun p => ¬ p.1 == fname)
    updateAnalyzer pa.1 (some cs) { pa.2 with field_map := some newMap }

/-- `handleCloneExisting` (App.tsx): `{ ...crawlToClone.crawl_spec, name:
name + " (Copy)" }` — a shallow spread: the clone shares the seeds,
analyzer-specs and blacklist references of the original. -/
def handleCloneExisting (spec : SpecObj) : SpecObj :=
  { spec with name := spec.name ++ " (Copy)" }

/-- The draft mutation operations reachable from the three editor surfaces
(`replaceSpec` is the bare `onCrawlSpecChange`/`setNewCrawlSpec` whole-draft
swap). -/
inductive DraftOp where
  | replaceSpec (ns : SpecObj)
  | nameChange (name : String)
  | workerCountChange (wc : Int)
  | addUrl
  | urlChange (index : Nat) (url : String)
  | removeUrl (index : Nat)
  | addSearchUrls (urls : List String)
  | addTerm (t : NewTermV)
  | removeTerm (ttype : String) (index : Nat)
  | promptChange (prompt : String)
  | compositeWeightChange (name : String) (weight : Int)
  | addOutputField (fname ftype : String)
  | removeOutputField (fname : String)
deriving DecidableEq, Repr

/-- Dispatch one draft mutation. -/
def applyOp (h : Heap) (s : Option SpecObj) : DraftOp → Heap × Option SpecObj
  | DraftOp.replaceSpec ns => (h, some ns)
  | DraftOp.nameChange n => handleNameChange h s n
  | DraftOp.workerCountChange wc => handleWorkerCountChange h s wc
  | DraftOp.addUrl => handleAddUrl h s
  | DraftOp.urlChange i url => handleUrlChange h s i url
  | DraftOp.removeUrl i => handleRemoveUrl h s i
  | DraftOp.addSearchUrls urls => handleAddSearchUrls h s urls
  | DraftOp.addTerm t => handleAddTerm h s t
  | DraftOp.removeTerm ty i => handleRemoveTerm h s ty i
  | DraftOp.promptChange p => handlePromptChange h s p
  | DraftOp.compositeWeightChange n w => handleCompositeWeightChange h s n w
  | DraftOp.addOutputField fn ft => handleAddOutputField h s fn ft
  | DraftOp.removeOutputField fn => handleRemoveOutputField h s fn

/-- Run a sequence of draft mutations. -/
def applyOps (h : Heap) (s : Option SpecObj) : List DraftOp → Heap × Option SpecObj
  | [] => (h, s)
  | op :: ops =>
    let p := applyOp h s op
    applyOps p.1 p.2 ops

/-! ## ResultsTab: record selection and detail fetches (`handleSelectRecord`)

Embedding of `handleSelectRecord` (ResultsTab.tsx lines 46-67; the earlier
revision in `src/unnamed/part_003` lines 39-52 behaves identically here).  The
handler immediately sets `selectedRecordId`, then awaits the detail fetch; the
continuation after the await applies the first returned record to
`selectedRecord` unconditionally — it performs no comparison against the
selection current at resolution time.  Suspension points are exactly the
network calls, so a run is a sequence of events: synchronous `selectRecord`
calls and resolutions of previously issued fetches. -/

/-- A full detail record (TS `CrawlRecord`): its own keys with printable
values. -/
structure RecordV where
  fields : List (String × String)
deriving DecidableEq, Repr

/-- An in-flight detail fetch: issue order (`token`) and the summary id it was
issued for. -/
structure DetailFetch where
  token : Nat
  requestId : String
deriving DecidableEq, Repr

/-- Observable state of the ResultsTab selection/detail slice. -/
structure ResultsState where
  selectedRecordId : String
  selectedRecord : Option RecordV
  selectedField : String
  pendingFetches : List DetailFetch
  nextToken : Nat
  toasts : List Toast
deriving DecidableEq, Repr

/-- Events of the selection slice: a click issuing `handleSelectRecord`, and
the success/failure resolution of one previously issued fetch. -/
inductive ResultsEvent where
  | selectRecord (summaryId : String)
  | resolveOk (f : DetailFetch) (records : List RecordV)
  | resolveErr (f : DetailFetch)
deriving DecidableEq, Repr

/-- One step of the selection slice.  `selectRecord`: no-op without a selected
crawl, else set the highlight id and issue the fetch.  `resolveOk`: the
continuation after the await — if the response carries records, apply the
first one to `selectedRecord` unconditionally (resetting `selectedField` when
it is empty or absent from the record's keys).  `resolveErr`: error toast and
reset of the highlight id.  Resolutions of fetches that are not pending are
no-ops (each issued request resolves at most once). -/
def resultsStep (selectedCrawl : Option String) (st : ResultsState) :
    ResultsEvent → ResultsState
  | ResultsEvent.selectRecord sid =>
    match selectedCrawl with
    | none => st
    | some _ =>
      { st with selectedRecordId := sid,
                pendingFetches := st.pendingFetches ++ [⟨st.nextToken, sid⟩],
                nextToken := st.nextToken + 1 }
  | ResultsEvent.resolveOk f records =>
    if f ∈ st.pendingFetches then
      let st1 := { st with pendingFetches := st.pendingFetches.erase f }
      match records with
      | [] => st1
      | r :: _ =>
        let newField :=
          if st.selectedField = "" ∨ ¬ (r.fields.any (fun p => p.1 == st.selectedField))
          then "extracted_content" else st.selectedField
        { st1 with selectedRecord := some r, selectedField := newField }
    else st
  | ResultsEvent.resolveErr f =>
    if f ∈ st.pendingFetches then
      { st with pendingFetches := st.pendingFetches.erase f,
                toasts := st.toasts ++
                  [⟨ToastKind.error, "Fetch Error", "Failed to fetch record details"⟩],
                selectedRecordId := "" }
    else st

/-- Run a sequence of selection-slice events. -/
def runResults (selectedCrawl : Option String) (st : ResultsState) :
    List ResultsEvent → ResultsState
  | [] => st
  | e :: es => runResults selectedCrawl (resultsStep selectedCrawl st e) es

/-! ## Roster Synchronizer and top-level App (`useCrawlData`, App.tsx)

Embedding of `useCrawlData` (hooks/useCrawlData.ts) together with the
selection state and the connection-error effect of App.tsx.  The effect
cleanup only calls `clearInterval`, so after deactivation no new fetch starts;
but `fetchCrawlData`'s continuation calls the state setters with no
staleness/mount guard, so a response still in flight at deactivation applies
when it resolves.  App's error effect has dependency `[error, showError]`:
it re-runs when the committed `error` value changes (`showError` is modelled
stable; the `useToast` hook is not among the supplied sources and the spec's
notification queue gives it no per-render identity), and its body emits one
toast only when `error` is non-null. -/

/-- Observable state of the roster synchronizer plus the App selection and
error-notification slice. -/
structure AppState where
  crawls : List CrawlInfoV
  loading : Bool
  error : Option String
  active : Bool
  inflight : Nat
  selectedCrawl : Option CrawlInfoV
  lastEffectError : Option String
  toasts : List Toast
deriving DecidableEq, Repr

/-- Events: an interval tick starting a roster fetch, the effect cleanup, the
resolution of one in-flight fetch (success/failure), a table row (de)selection,
and the success continuation of the delete command. -/
inductive AppEvent where
  | tick
  | deactivate
  | pollOk (cs : List CrawlInfoV)
  | pollErr
  | selectCrawl (c : Option CrawlInfoV)
  | deleteSuccess (c : CrawlInfoV)
deriving DecidableEq, Repr

/-- App.tsx error effect (deps `[error, showError]`): runs when the committed
`error` changed since the last run; emits a Connection Error toast when
`error` is non-null. -/
def errorEffect (st : AppState) : AppState :=
  if st.error ≠ st.lastEffectError then
    { st with
        toasts := st.toasts ++
          (match st.error with
           | some e => [⟨ToastKind.error, "Connection Error", e⟩]
           | none => []),
        lastEffectError := st.error }
  else st

/-- One step of the roster/App machine.  `tick`: the interval fires only while
active (`clearInterval` stops it), starting one fetch.  `pollOk` / `pollErr`:
the `fetchCrawlData` continuation — applied unconditionally, with no
activity guard, exactly as the source; a failure touches only `error` and
`loading`.  `deleteSuccess`: CrawlTable's delete continuation, clearing the
selection when the deleted id is the selected one. -/
def appStep (st : AppState) : AppEvent → AppState
  | AppEvent.tick =>
    if st.active then { st with inflight := st.inflight + 1 } else st
  | AppEvent.deactivate => { st with active := false }
  | AppEvent.pollOk cs =>
    if st.inflight > 0 then
      errorEffect { st with inflight := st.inflight - 1, crawls := cs,
                            error := none, loading := false }
    else st
  | AppEvent.pollErr =>
    if st.inflight > 0 then
      errorEffect { st with inflight := st.inflight - 1,
                            error := some "Failed to fetch crawl data",
                            loading := false }
    else st
  | AppEvent.selectCrawl c => { st with selectedCrawl := c }
  | AppEvent.deleteSuccess c =>
    let st1 := { st with toasts := st.toasts ++
      [⟨ToastKind.success, "Crawl Deleted",
        "Successfully deleted crawl " ++ c.crawl_spec.name⟩] }
    match st.selectedCrawl with
    | some sc =>
      if sc.crawl_status.crawl_id == c.crawl_status.crawl_id then
        { st1 with selectedCrawl := none }
      else st1
    | none => st1

/-- Run a sequence of roster/App events. -/
def runApp (st : AppState) : List AppEvent → AppState
  | [] => st
  | e :: es => runApp (appStep st e) es

/-! ## Theorems -/

/-- C2: a draft with an empty (or whitespace-only) name, no seeds, or a worker
count outside `[1, 16]` makes `handleSubmitCrawl` emit exactly one
validation-error toast and change nothing else: in particular no `createCrawl`
network request is issued and the draft, the loading flag and the previously
issued calls are untouched. -/
theorem submit_invalid_draft_validation_only
    (existing : List CrawlInfoV) (st : OverviewState) (cs : CrawlSpecV)
    (hd : st.draft = some cs) (hinv : invalidDraft cs) :
    ∃ t : Toast, t.kind = ToastKind.error ∧ t.title = "Validation Error" ∧
      handleSubmitCrawl existing st = { st with toasts := st.toasts ++ [t] } := by
  obtain ⟨ts, cc, ld, dr⟩ := st
  simp only at hd
  subst hd
  simp only [handleSubmitCrawl]
  by_cases h1 : jsTrim cs.name = ""
  · exact ⟨_, rfl, rfl, by rw [if_pos h1]⟩
  · rw [if_neg h1]
    by_cases h2 : isDuplicateName existing cs = true
    · exact ⟨_, rfl, rfl, by rw [if_pos h2]⟩
    · rw [if_neg h2]
      by_cases h3 : cs.seeds.isEmpty = true
      · exact ⟨_, rfl, rfl, by rw [if_pos h3]⟩
      · rw [if_neg h3]
        have h4 : cs.worker_count < 1 ∨ cs.worker_count > 16 := by
          rcases hinv with h | h | h | h
          · exact absurd h h1
          · exact absurd (by simp [h]) h3
          · exact Or.inl h
          · exact Or.inr h
        exact ⟨_, rfl, rfl, by rw [if_pos h4]⟩

/-- Witness for C2 at a concrete invalid draft (empty name). -/
theorem submit_invalid_draft_validation_only_witness :
    ∃ t : Toast, t.kind = ToastKind.error ∧ t.title = "Validation Error" ∧
      handleSubmitCrawl [] ⟨[], [], false, some sampleInvalidDraft⟩ =
        { toasts := [t], createCalls := [], loading := false,
          draft := some sampleInvalidDraft } :=
  submit_invalid_draft_validation_only []
    ⟨[], [], false, some sampleInvalidDraft⟩ sampleInvalidDraft rfl
    (Or.inl (by decide))

/-- C3: the case-insensitive duplicate-name guard of `handleSubmitCrawl`.
First conjunct: a draft whose name matches some roster entry case-insensitively
(and is not already rejected as empty) short-circuits with one validation-error
toast and no other change, so no network call.  Second conjunct: whenever a
`createCrawl` request is actually issued, the draft name matched no roster
entry case-insensitively (and the dispatched request carries the draft). -/
theorem submit_duplicate_name_guard
    (existing : List CrawlInfoV) (st : OverviewState) (cs : CrawlSpecV)
    (hd : st.draft = some cs) :
    (jsTrim cs.name ≠ "" → isDuplicateName existing cs = true →
      ∃ t : Toast, t.kind = ToastKind.error ∧ t.title = "Validation Error" ∧
        handleSubmitCrawl existing st = { st with toasts := st.toasts ++ [t] }) ∧
    ((handleSubmitCrawl existing st).createCalls ≠ st.createCalls →
      isDuplicateName existing cs = false ∧
      (handleSubmitCrawl existing st).createCalls = st.createCalls ++ [cs]) := by
  obtain ⟨ts, cc, ld, dr⟩ := st
  simp only at hd
  subst hd
  constructor
  · intro h1 h2
    simp only [handleSubmitCrawl]
    rw [if_neg h1]
    exact ⟨_, rfl, rfl, by rw [if_pos h2]⟩
  · intro hne
    simp only [handleSubmitCrawl] at hne ⊢
    by_cases h1 : jsTrim cs.name = ""
    · rw [if_pos h1] at hne; exact absurd rfl hne
    · rw [if_neg h1] at hne ⊢
      by_cases h2 : isDuplicateName existing cs = true
      · rw [if_pos h2] at hne; exact absurd rfl hne
      · rw [if_neg h2] at hne ⊢
        by_cases h3 : cs.seeds.isEmpty = true
        · rw [if_pos h3] at hne; exact absurd rfl hne
        · rw [if_neg h3] at hne ⊢
          by_cases h4 : cs.worker_count < 1 ∨ cs.worker_count > 16
          · rw [if_pos h4] at hne; exact absurd rfl hne
          · rw [if_neg h4]
            exact ⟨Bool.eq_false_iff.mpr h2, rfl⟩

/-- Witness for C3 at a concrete duplicate draft ("ALPHA" against roster entry
"alpha"): the submission short-circuits with a validation-error toast. -/
theorem submit_duplicate_name_guard_witness :
    ∃ t : Toast, t.kind = ToastKind.error ∧ t.title = "Validation Error" ∧
      handleSubmitCrawl [sampleInfo] ⟨[], [], false, some sampleDupDraft⟩ =
        { toasts := [t], createCalls := [], loading := false,
          draft := some sampleDupDraft } :=
  (submit_duplicate_name_guard [sampleInfo]
      ⟨[], [], false, some sampleDupDraft⟩ sampleDupDraft rfl).1
    (by decide) (by decide)

theorem insertLe_perm (le : α → α → Bool) (x : α) (l : List α) :
    (insertLe le x l).Perm (x :: l) := by
  induction l with
  | nil => exact List.Perm.refl _
  | cons y ys ih =>
    by_cases h : le x y = true
    · simp only [insertLe, if_pos h]
      exact List.Perm.refl _
    · simp only [insertLe, if_neg h]
      exact (ih.cons y).trans (List.Perm.swap x y ys)

theorem stableSort_perm (le : α → α → Bool) (l : List α) :
    (stableSort le l).Perm l := by
  induction l with
  | nil => exact List.Perm.refl _
  | cons x xs ih =>
    exact (insertLe_perm le x (stableSort le xs)).trans (ih.cons x)

theorem mem_insertLe (le : α → α → Bool) (x a : α) (l : List α) :
    a ∈ insertLe le x l ↔ a = x ∨ a ∈ l := by
  rw [(insertLe_perm le x l).mem_iff, List.mem_cons]

theorem pairwise_insertLe (le : α → α → Bool)
    (htot : ∀ a b, le a b = true ∨ le b a = true)
    (htrans : ∀ a b c, le a b = true → le b c = true → le a c = true)
    (x : α) (l : List α) (h : l.Pairwise (fun a b => le a b = true)) :
    (insertLe le x l).Pairwise (fun a b => le a b = true) := by
  induction l with
  | nil => simp [insertLe]
  | cons y ys ih =>
    by_cases hxy : le x y = true
    · simp only [insertLe, if_pos hxy]
      refine List.Pairwise.cons ?_ h
      intro b hb
      rcases List.mem_cons.mp hb with hb | hb
      · exact hb ▸ hxy
      · exact htrans x y b hxy (List.rel_of_pairwise_cons h hb)
    · simp only [insertLe, if_neg hxy]
      have hyx : le y x = true := (htot x y).resolve_left hxy
      refine List.Pairwise.cons ?_ (ih h.tail)
      intro b hb
      rcases (mem_insertLe le x b ys).mp hb with hb | hb
      · exact hb ▸ hyx
      · exact List.rel_of_pairwise_cons h hb

theorem stableSort_pairwise (le : α → α → Bool)
    (htot : ∀ a b, le a b = true ∨ le b a = true)
    (htrans : ∀ a b c, le a b = true → le b c = true → le a c = true)
    (l : List α) :
    (stableSort le l).Pairwise (fun a b => le a b = true) := by
  induction l with
  | nil => simp [stableSort]
  | cons x xs ih => exact pairwise_insertLe le htot htrans x (stableSort le xs) ih

theorem jsSortLe_score_asc (a b : RecordSummaryV) :
    jsSortLe ⟨SortKey.score, SortDirection.asc⟩ a b = true ↔ a.score ≤ b.score := by
  show decide ((if a.score < b.score then (-1 : Int)
      else if b.score < a.score then 1 else 0) ≤ 0) = true ↔ a.score ≤ b.score
  rw [decide_eq_true_eq]
  split_ifs <;> omega

theorem jsSortLe_score_desc (a b : RecordSummaryV) :
    jsSortLe ⟨SortKey.score, SortDirection.desc⟩ a b = true ↔ b.score ≤ a.score := by
  show decide ((if a.score < b.score then (1 : Int)
      else if b.score < a.score then -1 else 0) ≤ 0) = true ↔ b.score ≤ a.score
  rw [decide_eq_true_eq]
  split_ifs <;> omega

/-- C8 counterexample: two records with equal scores.  The stable sort leaves
them in input order for both directions, so the ascending order is *not* the
reverse of the descending order. -/
theorem sortRecords_asc_desc_reverse_counterexample :
    sortRecords ⟨SortKey.score, SortDirection.asc⟩
        [⟨"a", "https://a.example", 1⟩, ⟨"b", "https://b.example", 1⟩] ≠
      (sortRecords ⟨SortKey.score, SortDirection.desc⟩
        [⟨"a", "https://a.example", 1⟩, ⟨"b", "https://b.example", 1⟩]).reverse := by
  decide

/-- C8 amended: sorting a summary list by score ascending and by score
descending yield exact reverses of one another whenever the records carry
pairwise-distinct scores; records with equal scores instead keep their
original relative order in both directions (stable sort), so for lists with
ties the two orders are not exact reverses. -/
theorem sortRecords_score_asc_desc_reverse_of_distinct
    (rs : List RecordSummaryV)
    (hdist : rs.Pairwise (fun a b => a.score ≠ b.score)) :
    sortRecords ⟨SortKey.score, SortDirection.asc⟩ rs =
      (sortRecords ⟨SortKey.score, SortDirection.desc⟩ rs).reverse := by
  have permA : (sortRecords ⟨SortKey.score, SortDirection.asc⟩ rs).Perm rs :=
    stableSort_perm _ rs
  have permD : (sortRecords ⟨SortKey.score, SortDirection.desc⟩ rs).Perm rs :=
    stableSort_perm _ rs
  have hdistA := (permA.pairwise_iff (fun h => Ne.symm h)).mpr hdist
  have hdistD := (permD.pairwise_iff (fun h => Ne.symm h)).mpr hdist
  have hsortA : (sortRecords ⟨SortKey.score, SortDirection.asc⟩ rs).Pairwise
      (fun a b => a.score ≤ b.score) := by
    refine (stableSort_pairwise _ ?_ ?_ rs).imp ?_
    · intro a b
      rcases le_total a.score b.score with h | h
      · exact Or.inl ((jsSortLe_score_asc a b).mpr h)
      · exact Or.inr ((jsSortLe_score_asc b a).mpr h)
    · intro a b c hab hbc
      exact (jsSortLe_score_asc a c).mpr
        (le_trans ((jsSortLe_score_asc a b).mp hab) ((jsSortLe_score_asc b c).mp hbc))
    · intro a b h
      exact (jsSortLe_score_asc a b).mp h
  have hsortD : (sortRecords ⟨SortKey.score, SortDirection.desc⟩ rs).Pairwise
      (fun a b => b.score ≤ a.score) := by
    refine (stableSort_pairwise _ ?_ ?_ rs).imp ?_
    · intro a b
      rcases le_total b.score a.score with h | h
      · exact Or.inl ((jsSortLe_score_desc a b).mpr h)
      · exact Or.inr ((jsSortLe_score_desc b a).mpr h)
    · intro a b c hab hbc
      exact (jsSortLe_score_desc a c).mpr
        (le_trans ((jsSortLe_score_desc b c).mp hbc) ((jsSortLe_score_desc a b).mp hab))
    · intro a b h
      exact (jsSortLe_score_desc a b).mp h
  have hstrictA : (sortRecords ⟨SortKey.score, SortDirection.asc⟩ rs).Pairwise
      (fun a b => a.score < b.score) :=
    (hsortA.and hdistA).imp (fun h => lt_of_le_of_ne h.1 h.2)
  have hstrictD : (sortRecords ⟨SortKey.score, SortDirection.desc⟩ rs).Pairwise
      (fun a b => b.score < a.score) :=
    (hsortD.and hdistD).imp (fun h => lt_of_le_of_ne h.1 (Ne.symm h.2))
  have hstrictDrev : ((sortRecords ⟨SortKey.score, SortDirection.desc⟩ rs).reverse).Pairwise
      (fun a b => a.score < b.score) :=
    List.pairwise_reverse.mpr hstrictD
  have hperm : (sortRecords ⟨SortKey.score, SortDirection.asc⟩ rs).Perm
      ((sortRecords ⟨SortKey.score, SortDirection.desc⟩ rs).reverse) :=
    permA.trans (permD.symm.trans (List.reverse_perm _).symm)
  haveI : IsAntisymm RecordSummaryV (fun a b => a.score < b.score) :=
    ⟨fun a b h1 h2 => absurd (lt_trans h1 h2) (lt_irrefl _)⟩
  exact List.eq_of_perm_of_sorted hperm hstrictA hstrictDrev

/-- Witness for the amended C8 at a concrete tie-free list. -/
theorem sortRecords_score_asc_desc_reverse_of_distinct_witness :
    sortRecords ⟨SortKey.score, SortDirection.asc⟩
        [⟨"a", "https://a.example", 3⟩, ⟨"b", "https://b.example", 1⟩,
         ⟨"c", "https://c.example", 2⟩] =
      (sortRecords ⟨SortKey.score, SortDirection.desc⟩
        [⟨"a", "https://a.example", 3⟩, ⟨"b", "https://b.example", 1⟩,
         ⟨"c", "https://c.example", 2⟩]).reverse :=
  sortRecords_score_asc_desc_reverse_of_distinct _ (by decide)

theorem heapExtends_refl (h : Heap) : HeapExtends h h := ⟨[], by simp⟩

theorem heapExtends_trans {h1 h2 h3 : Heap}
    (e1 : HeapExtends h1 h2) (e2 : HeapExtends h2 h3) : HeapExtends h1 h3 := by
  obtain ⟨t1, rfl⟩ := e1
  obtain ⟨t2, rfl⟩ := e2
  exact ⟨t1 ++ t2, by simp⟩

theorem alloc_extends (h : Heap) (o : Obj) : HeapExtends h (alloc h o).1 := ⟨[o], rfl⟩

theorem getElem?_extends {h h' : Heap} (hx : HeapExtends h h') {a : Nat}
    (ha : a < h.length) : h'[a]? = h[a]? := by
  obtain ⟨t, rfl⟩ := hx
  exact List.getElem?_append_left ha

theorem lookupStrs_extends {h h' : Heap} (hx : HeapExtends h h') {a : Nat}
    (ha : a < h.length) : lookupStrs h' a = lookupStrs h a := by
  unfold lookupStrs
  rw [getElem?_extends hx ha]

theorem lookupKw_extends {h h' : Heap} (hx : HeapExtends h h') {a : Nat}
    (ha : a < h.length) : lookupKw h' a = lookupKw h a := by
  unfold lookupKw
  rw [getElem?_extends hx ha]

theorem lookupRx_extends {h h' : Heap} (hx : HeapExtends h h') {a : Nat}
    (ha : a < h.length) : lookupRx h' a = lookupRx h a := by
  unfold lookupRx
  rw [getElem?_extends hx ha]

theorem lookupSpecArr_extends {h h' : Heap} (hx : HeapExtends h h') {a : Nat}
    (ha : a < h.length) : lookupSpecArr h' a = lookupSpecArr h a := by
  unfold lookupSpecArr
  rw [getElem?_extends hx ha]

theorem lookupAnalyzer_extends {h h' : Heap} (hx : HeapExtends h h') {a : Nat}
    (ha : a < h.length) : lookupAnalyzer h' a = lookupAnalyzer h a := by
  unfold lookupAnalyzer
  rw [getElem?_extends hx ha]

theorem getOrCreateAnalyzer_extends (h : Heap) (cs : SpecObj) (name : String) :
    HeapExtends h (getOrCreateAnalyzer h cs name).1 := by
  unfold getOrCreateAnalyzer
  split
  · exact heapExtends_refl h
  · split
    · exact heapExtends_trans (alloc_extends h _) (alloc_extends _ _)
    · split
      · exact heapExtends_refl h
      · exact heapExtends_refl h

theorem updateAnalyzer_extends (h : Heap) (s : Option SpecObj) (ua : AnalyzerObj) :
    HeapExtends h (updateAnalyzer h s ua).1 := by
  cases s with
  | none => exact heapExtends_refl h
  | some cs =>
    simp only [updateAnalyzer]
    split
    · exact heapExtends_trans (alloc_extends h _) (alloc_extends _ _)
    · exact heapExtends_trans (alloc_extends h _) (alloc_extends _ _)

theorem applyOp_extends (h : Heap) (s : Option SpecObj) (op : DraftOp) :
    HeapExtends h (applyOp h s op).1 := by
  cases op with
  | replaceSpec ns => exact heapExtends_refl h
  | nameChange n =>
    cases s <;> exact heapExtends_refl h
  | workerCountChange wc =>
    cases s <;> exact heapExtends_refl h
  | addUrl =>
    cases s with
    | none => exact heapExtends_refl h
    | some cs => exact alloc_extends h _
  | urlChange i url =>
    cases s with
    | none => exact heapExtends_refl h
    | some cs => exact alloc_extends h _
  | removeUrl i =>
    cases s with
    | none => exact heapExtends_refl h
    | some cs => exact alloc_extends h _
  | addSearchUrls urls =>
    cases s with
    | none => exact heapExtends_refl h
    | some cs => exact alloc_extends h _
  | addTerm t =>
    show HeapExtends h (handleAddTerm h s t).1
    by_cases ht : jsTrim t.term = ""
    · simp only [handleAddTerm, if_pos ht]
      exact heapExtends_refl h
    · cases s with
      | none =>
        simp only [handleAddTerm, if_neg ht]
        exact heapExtends_refl h
      | some cs =>
        simp only [handleAddTerm, if_neg ht]
        split
        · exact heapExtends_trans (getOrCreateAnalyzer_extends h cs _)
            (heapExtends_trans (alloc_extends _ _) (updateAnalyzer_extends _ _ _))
        · exact heapExtends_trans (getOrCreateAnalyzer_extends h cs _)
            (heapExtends_trans (alloc_extends _ _) (updateAnalyzer_extends _ _ _))
  | removeTerm ty i =>
    show HeapExtends h (handleRemoveTerm h s ty i).1
    cases s with
    | none => exact heapExtends_refl h
    | some cs =>
      simp only [handleRemoveTerm]
      split
      · exact heapExtends_trans (getOrCreateAnalyzer_extends h cs _)
          (heapExtends_trans (alloc_extends _ _) (updateAnalyzer_extends _ _ _))
      · exact heapExtends_trans (getOrCreateAnalyzer_extends h cs _)
          (heapExtends_trans (alloc_extends _ _) (updateAnalyzer_extends _ _ _))
  | promptChange p =>
    show HeapExtends h (handlePromptChange h s p).1
    cases s with
    | none => exact heapExtends_refl h
    | some cs =>
      exact heapExtends_trans (getOrCreateAnalyzer_extends h cs _)
        (updateAnalyzer_extends _ _ _)
  | compositeWeightChange n w =>
    show HeapExtends h (handleCompositeWeightChange h s n w).1
    cases s with
    | none => exact heapExtends_refl h
    | some cs =>
      exact heapExtends_trans (getOrCreateAnalyzer_extends h cs _)
        (updateAnalyzer_extends _ _ _)
  | addOutputField fn ft =>
    show HeapExtends h (handleAddOutputField h s fn ft).1
    by_cases ht : jsTrim fn = ""
    · simp only [handleAddOutputField, if_pos ht]
      exact heapExtends_refl h
    · cases s with
      | none =>
        simp only [handleAddOutputField, if_neg ht]
        exact heapExtends_refl h
      | some cs =>
        simp only [handleAddOutputField, if_neg ht]
        exact heapExtends_trans (getOrCreateAnalyzer_extends h cs _)
          (updateAnalyzer_extends _ _ _)
  | removeOutputField fn =>
    show HeapExtends h (handleRemoveOutputField h s fn).1
    cases s with
    | none => exact heapExtends_refl h
    | some cs =>
      exact heapExtends_trans (getOrCreateAnalyzer_extends h cs _)
        (updateAnalyzer_extends _ _ _)

theorem applyOps_extends (ops : List DraftOp) :
    ∀ (h : Heap) (s : Option SpecObj), HeapExtends h (applyOps h s ops).1 := by
  induction ops with
  | nil => intro h s; exact heapExtends_refl h
  | cons op ops ih =>
    intro h s
    exact heapExtends_trans (applyOp_extends h s op) (ih _ _)

theorem analyzerView_extends {h h' : Heap} (hx : HeapExtends h h') (a : AnalyzerObj)
    (hk : optAddrWf h a.keywords) (hr : optAddrWf h a.regexes) :
    analyzerView h' a = analyzerView h a := by
  unfold analyzerView
  cases hak : a.keywords with
  | none =>
    cases har : a.regexes with
    | none => rfl
    | some r =>
      rw [har] at hr
      simp [lookupRx_extends hx hr]
  | some k =>
    rw [hak] at hk
    cases har : a.regexes with
    | none => simp [lookupKw_extends hx hk]
    | some r =>
      rw [har] at hr
      simp [lookupKw_extends hx hk, lookupRx_extends hx hr]

theorem specView_extends {h h' : Heap} (hx : HeapExtends h h') (s : SpecObj)
    (hwf : SpecWf h s) : specView h' s = specView h s := by
  obtain ⟨hs, hb, ha, hall⟩ := hwf
  have hmap : (lookupSpecArr h s.analyzer_specs).map
        (fun ad => analyzerView h' (lookupAnalyzer h' ad)) =
      (lookupSpecArr h s.analyzer_specs).map
        (fun ad => analyzerView h (lookupAnalyzer h ad)) := by
    refine List.map_congr_left ?_
    intro ad had
    obtain ⟨hlt, hk, hr⟩ := hall ad had
    rw [lookupAnalyzer_extends hx hlt]
    exact analyzerView_extends hx _ hk hr
  unfold specView
  rw [lookupStrs_extends hx hs, lookupStrs_extends hx hb,
    lookupSpecArr_extends hx ha, hmap]

/-- C9: every draft mutation operation — whole-draft replace, name or
worker-count change, every seed-list mutation, every analyzer mutation — only
allocates: the heap after the operation extends the heap before it, and any
`CrawlSpec` snapshot a caller held before the mutation still dereferences
(deeply: seeds, analyzer specs and their payload arrays) to exactly the value
it had before.  Copy-on-write holds; nothing is mutated in place. -/
theorem draft_mutation_copy_on_write (h : Heap) (s : Option SpecObj) (op : DraftOp)
    (snap : SpecObj) (hwf : SpecWf h snap) :
    HeapExtends h (applyOp h s op).1 ∧
    specView (applyOp h s op).1 snap = specView h snap :=
  ⟨applyOp_extends h s op,
   specView_extends (applyOp_extends h s op) snap hwf⟩

/-- Witness for C9: a concrete draft, a concrete seed edit, and the held
snapshot (the draft itself) whose deep value is unchanged. -/
theorem draft_mutation_copy_on_write_witness :
    HeapExtends [Obj.strs ["https://a.example"], Obj.specArr [], Obj.strs []]
      (applyOp [Obj.strs ["https://a.example"], Obj.specArr [], Obj.strs []]
        (some ⟨"Alpha", 0, 1, 4, 2⟩)
        (DraftOp.urlChange 0 "https://changed.example")).1 ∧
    specView
      (applyOp [Obj.strs ["https://a.example"], Obj.specArr [], Obj.strs []]
        (some ⟨"Alpha", 0, 1, 4, 2⟩)
        (DraftOp.urlChange 0 "https://changed.example")).1
      ⟨"Alpha", 0, 1, 4, 2⟩ =
    specView [Obj.strs ["https://a.example"], Obj.specArr [], Obj.strs []]
      ⟨"Alpha", 0, 1, 4, 2⟩ :=
  draft_mutation_copy_on_write _ _ _ _ (by decide)

/-- C7: cloning a roster entry whose specification is named `N` yields a draft
named `N ++ " (Copy)"` whose seeds and analyzer specs dereference to values
deep-equal to the original (the spread shares the references), and running any
sequence of draft mutations on the clone leaves the original specification —
including its nested seeds and analyzer payloads — deeply unchanged. -/
theorem clone_copy_name_deep_equal_isolated (h : Heap) (orig : SpecObj)
    (ops : List DraftOp) (hwf : SpecWf h orig) :
    (handleCloneExisting orig).name = orig.name ++ " (Copy)" ∧
    (specView h (handleCloneExisting orig)).seeds = (specView h orig).seeds ∧
    (specView h (handleCloneExisting orig)).analyzer_specs =
      (specView h orig).analyzer_specs ∧
    specView (applyOps h (some (handleCloneExisting orig)) ops).1 orig =
      specView h orig := by
  refine ⟨rfl, rfl, rfl, ?_⟩
  exact specView_extends (applyOps_extends ops h _) orig hwf

/-- Witness for C7: clone a concrete "Alpha" job carrying one keyword
analyzer, then rename, edit a seed and add a term on the clone; the original
job's deep value is untouched. -/
theorem clone_copy_name_deep_equal_isolated_witness :
    (handleCloneExisting ⟨"Alpha", 0, 3, 4, 4⟩).name = "Alpha" ++ " (Copy)" ∧
    (specView
        [Obj.strs ["https://a.example"], Obj.kwArr [⟨"gold", 1⟩],
         Obj.analyzer ⟨"KeywordScoreAnalyzer", 1, some 1, none, none, none, none⟩,
         Obj.specArr [2], Obj.strs []]
        (handleCloneExisting ⟨"Alpha", 0, 3, 4, 4⟩)).seeds =
      (specView
        [Obj.strs ["https://a.example"], Obj.kwArr [⟨"gold", 1⟩],
         Obj.analyzer ⟨"KeywordScoreAnalyzer", 1, some 1, none, none, none, none⟩,
         Obj.specArr [2], Obj.strs []]
        ⟨"Alpha", 0, 3, 4, 4⟩).seeds ∧
    (specView
        [Obj.strs ["https://a.example"], Obj.kwArr [⟨"gold", 1⟩],
         Obj.analyzer ⟨"KeywordScoreAnalyzer", 1, some 1, none, none, none, none⟩,
         Obj.specArr [2], Obj.strs []]
        (handleCloneExisting ⟨"Alpha", 0, 3, 4, 4⟩)).analyzer_specs =
      (specView
        [Obj.strs ["https://a.example"], Obj.kwArr [⟨"gold", 1⟩],
         Obj.analyzer ⟨"KeywordScoreAnalyzer", 1, some 1, none, none, none, none⟩,
         Obj.specArr [2], Obj.strs []]
        ⟨"Alpha", 0, 3, 4, 4⟩).analyzer_specs ∧
    specView
      (applyOps
        [Obj.strs ["https://a.example"], Obj.kwArr [⟨"gold", 1⟩],
         Obj.analyzer ⟨"KeywordScoreAnalyzer", 1, some 1, none, none, none, none⟩,
         Obj.specArr [2], Obj.strs []]
        (some (handleCloneExisting ⟨"Alpha", 0, 3, 4, 4⟩))
        [DraftOp.nameChange "Beta", DraftOp.urlChange 0 "https://x.example",
         DraftOp.addTerm ⟨"Keyword", "silver", false, 2⟩]).1
      ⟨"Alpha", 0, 3, 4, 4⟩ =
    specView
      [Obj.strs ["https://a.example"], Obj.kwArr [⟨"gold", 1⟩],
       Obj.analyzer ⟨"KeywordScoreAnalyzer", 1, some 1, none, none, none, none⟩,
       Obj.specArr [2], Obj.strs []]
      ⟨"Alpha", 0, 3, 4, 4⟩ :=
  clone_copy_name_deep_equal_isolated _ _ _ (by decide)

theorem getElem?_append_length (l : List α) (a : α) : (l ++ [a])[l.length]? = some a := by
  induction l with
  | nil => rfl
  | cons x xs ih => simp only [List.cons_append, List.length_cons, List.getElem?_cons_succ]; exact ih

/-- C10: `handleAddSearchUrls` on a non-null draft publishes a seeds array
equal to the previous seeds followed by exactly those input URLs not already
present among the previous seeds, in input order; and the previously held
seeds array still dereferences to its old value (order and contents
untouched). -/
theorem add_search_urls_appends_unique (h : Heap) (s : SpecObj) (urls : List String)
    (hws : s.seeds < h.length) :
    ∃ cs : SpecObj,
      (handleAddSearchUrls h (some s) urls).2 = some cs ∧
      lookupStrs (handleAddSearchUrls h (some s) urls).1 cs.seeds =
        lookupStrs h s.seeds ++
          urls.filter (fun u => ¬ (lookupStrs h s.seeds).contains u) ∧
      lookupStrs (handleAddSearchUrls h (some s) urls).1 s.seeds =
        lookupStrs h s.seeds := by
  refine ⟨{ s with seeds := h.length }, rfl, ?_, ?_⟩
  · show lookupStrs
      (h ++ [Obj.strs (lookupStrs h s.seeds ++
        urls.filter (fun u => ¬ (lookupStrs h s.seeds).contains u))]) h.length = _
    unfold lookupStrs
    rw [getElem?_append_length]
  · exact lookupStrs_extends (alloc_extends h _) hws

/-- Witness for C10: one already-present URL is skipped, one new URL is
appended; the old array is untouched. -/
theorem add_search_urls_appends_unique_witness :
    ∃ cs : SpecObj,
      (handleAddSearchUrls [Obj.strs ["https://a.example"], Obj.specArr [], Obj.strs []]
        (some ⟨"Alpha", 0, 1, 1, 2⟩)
        ["https://a.example", "https://b.example"]).2 = some cs ∧
      lookupStrs
        (handleAddSearchUrls [Obj.strs ["https://a.example"], Obj.specArr [], Obj.strs []]
          (some ⟨"Alpha", 0, 1, 1, 2⟩)
          ["https://a.example", "https://b.example"]).1 cs.seeds =
        lookupStrs [Obj.strs ["https://a.example"], Obj.specArr [], Obj.strs []] 0 ++
          (["https://a.example", "https://b.example"].filter
            (fun u => ¬ (lookupStrs [Obj.strs ["https://a.example"],
              Obj.specArr [], Obj.strs []] 0).contains u)) ∧
      lookupStrs
        (handleAddSearchUrls [Obj.strs ["https://a.example"], Obj.specArr [], Obj.strs []]
          (some ⟨"Alpha", 0, 1, 1, 2⟩)
          ["https://a.example", "https://b.example"]).1 0 =
        lookupStrs [Obj.strs ["https://a.example"], Obj.specArr [], Obj.strs []] 0 :=
  add_search_urls_appends_unique _ _ _ (by decide)

/-- C1 counterexample: select record A, then record B before A's detail fetch
resolves, let B's response arrive, then A's.  The highlight id is B, yet the
displayed detail record is A's: `handleSelectRecord` applies a resolved
response unconditionally, so the superseded response is *not* discarded. -/
theorem stale_detail_response_displayed_counterexample :
    (runResults (some "crawl1") ⟨"", none, "extracted_content", [], 0, []⟩
        [ResultsEvent.selectRecord "A", ResultsEvent.selectRecord "B",
         ResultsEvent.resolveOk ⟨1, "B"⟩ [⟨[("id", "B"), ("extracted_content", "content B")]⟩],
         ResultsEvent.resolveOk ⟨0, "A"⟩
           [⟨[("id", "A"), ("extracted_content", "content A")]⟩]]).selectedRecordId = "B" ∧
    (runResults (some "crawl1") ⟨"", none, "extracted_content", [], 0, []⟩
        [ResultsEvent.selectRecord "A", ResultsEvent.selectRecord "B",
         ResultsEvent.resolveOk ⟨1, "B"⟩ [⟨[("id", "B"), ("extracted_content", "content B")]⟩],
         ResultsEvent.resolveOk ⟨0, "A"⟩
           [⟨[("id", "A"), ("extracted_content", "content A")]⟩]]).selectedRecord =
      some ⟨[("id", "A"), ("extracted_content", "content A")]⟩ := by
  decide

/-- C1 amended: `selectRecord` marks the clicked id as the pending selection
immediately, but a detail-fetch response carrying at least one record is
applied to the displayed detail unconditionally when it resolves — the
displayed record is the first record of the most recently resolved response
(last-response-wins), whether or not that response matches the current
pending selection. -/
theorem select_record_last_response_wins (sc : String) (st : ResultsState)
    (f : DetailFetch) (r : RecordV) (rest : List RecordV) (sid : String)
    (hf : f ∈ st.pendingFetches) :
    (resultsStep (some sc) st (ResultsEvent.selectRecord sid)).selectedRecordId = sid ∧
    (resultsStep (some sc) st (ResultsEvent.resolveOk f (r :: rest))).selectedRecord =
      some r := by
  constructor
  · rfl
  · simp only [resultsStep, if_pos hf]

/-- Witness for the amended C1: a still-pending fetch for "A" resolves while
the pending selection is "B"; its record is displayed anyway. -/
theorem select_record_last_response_wins_witness :
    (resultsStep (some "crawl1") ⟨"B", none, "extracted_content", [⟨0, "A"⟩], 2, []⟩
        (ResultsEvent.selectRecord "C")).selectedRecordId = "C" ∧
    (resultsStep (some "crawl1") ⟨"B", none, "extracted_content", [⟨0, "A"⟩], 2, []⟩
        (ResultsEvent.resolveOk ⟨0, "A"⟩
          [⟨[("extracted_content", "content A")]⟩])).selectedRecord =
      some ⟨[("extracted_content", "content A")]⟩ :=
  select_record_last_response_wins "crawl1" _ _ _ [] "C" (by decide)

/-- C4 counterexample: start a roster fetch, deactivate the synchronizer, then
let the in-flight response resolve.  The interval is stopped, yet the response
still replaces the crawls list after deactivation — the cleanup only clears
the interval and installs no stale-completion guard. -/
theorem poll_stale_completion_after_deactivation_counterexample :
    (runApp ⟨[], true, none, true, 0, none, none, []⟩
        [AppEvent.tick, AppEvent.deactivate, AppEvent.pollOk [sampleInfo]]).active = false ∧
    (runApp ⟨[], true, none, true, 0, none, none, []⟩
        [AppEvent.tick, AppEvent.deactivate, AppEvent.pollOk [sampleInfo]]).crawls =
      [sampleInfo] ∧
    (runApp ⟨[], true, none, true, 0, none, none, []⟩
        [AppEvent.tick, AppEvent.deactivate, AppEvent.pollOk [sampleInfo]]).crawls ≠
      ([] : List CrawlInfoV) := by
  decide

/-- C4 amended: after deactivation the interval no longer fires, so no new
poll fetch is ever initiated; but a poll response that was still in flight at
deactivation applies its state updates unconditionally when it resolves — the
crawls list is replaced, the error cleared and the loading flag reset, because
the effect cleanup installs no stale-completion guard. -/
theorem poll_deactivation_stops_ticks_not_inflight (st : AppState)
    (cs : List CrawlInfoV) (hinactive : st.active = false) (hin : st.inflight > 0) :
    appStep st AppEvent.tick = st ∧
    (appStep st (AppEvent.pollOk cs)).crawls = cs ∧
    (appStep st (AppEvent.pollOk cs)).error = none ∧
    (appStep st (AppEvent.pollOk cs)).loading = false := by
  refine ⟨by simp [appStep, hinactive], ?_, ?_, ?_⟩
  all_goals
    simp only [appStep, if_pos hin]
    unfold errorEffect
    split <;> rfl

/-- Witness for the amended C4 at a deactivated state with one in-flight
fetch. -/
theorem poll_deactivation_stops_ticks_not_inflight_witness :
    appStep ⟨[], false, none, false, 1, none, none, []⟩ AppEvent.tick =
      ⟨[], false, none, false, 1, none, none, []⟩ ∧
    (appStep ⟨[], false, none, false, 1, none, none, []⟩
      (AppEvent.pollOk [sampleInfo])).crawls = [sampleInfo] ∧
    (appStep ⟨[], false, none, false, 1, none, none, []⟩
      (AppEvent.pollOk [sampleInfo])).error = none ∧
    (appStep ⟨[], false, none, false, 1, none, none, []⟩
      (AppEvent.pollOk [sampleInfo])).loading = false :=
  poll_deactivation_stops_ticks_not_inflight _ _ rfl (by decide)

/-- C5 counterexample: with crawl "c1" selected, a poll tick replaces the
roster by a snapshot that no longer contains "c1".  The selection is *not*
cleared: it still refers to the vanished crawl, because nothing in App.tsx
reconciles `selectedCrawl` with a new snapshot. -/
theorem selection_survives_snapshot_removal_counterexample :
    (runApp ⟨[sampleInfo], false, none, true, 0, some sampleInfo, none, []⟩
        [AppEvent.tick, AppEvent.pollOk []]).crawls = ([] : List CrawlInfoV) ∧
    (runApp ⟨[sampleInfo], false, none, true, 0, some sampleInfo, none, []⟩
        [AppEvent.tick, AppEvent.pollOk []]).selectedCrawl = some sampleInfo ∧
    ¬ (runApp ⟨[sampleInfo], false, none, true, 0, some sampleInfo, none, []⟩
        [AppEvent.tick, AppEvent.pollOk []]).crawls.any
        (fun c => c.crawl_status.crawl_id == "c1") := by
  decide

/-- C5 amended: a successful poll tick replaces the roster snapshot wholesale
and always leaves the selection untouched — even when the selected id is
absent from the new snapshot, so the selection may dangle; the selection is
cleared only by the delete flow, when the successfully deleted crawl is the
currently selected one. -/
theorem selection_untouched_by_poll_cleared_by_delete (st : AppState)
    (cs : List CrawlInfoV) (c sc : CrawlInfoV) (hin : st.inflight > 0)
    (hsel : st.selectedCrawl = some sc)
    (hid : sc.crawl_status.crawl_id = c.crawl_status.crawl_id) :
    (appStep st (AppEvent.pollOk cs)).selectedCrawl = st.selectedCrawl ∧
    (appStep st (AppEvent.deleteSuccess c)).selectedCrawl = none := by
  constructor
  · simp only [appStep, if_pos hin]
    unfold errorEffect
    split <;> rfl
  · simp only [appStep, hsel, hid]
    simp

/-- Witness for the amended C5: the snapshot loses the selected id yet the
selection survives; a delete of the selected crawl clears it. -/
theorem selection_untouched_by_poll_cleared_by_delete_witness :
    (appStep ⟨[sampleInfo], false, none, true, 1, some sampleInfo, none, []⟩
      (AppEvent.pollOk [])).selectedCrawl = some sampleInfo ∧
    (appStep ⟨[sampleInfo], false, none, true, 1, some sampleInfo, none, []⟩
      (AppEvent.deleteSuccess sampleInfo)).selectedCrawl = none :=
  selection_untouched_by_poll_cleared_by_delete _ _ _ _ (by decide) rfl rfl

/-- C6 counterexample: two consecutive poll failures.  The first emits one
Connection Error toast; the second emits none, because `setError` stores the
same string and the error effect (deps `[error, ...]`) does not re-run — so
"exactly one error notification per failure" fails on failure streaks. -/
theorem consecutive_poll_failures_single_toast_counterexample :
    (runApp ⟨[sampleInfo], false, none, true, 0, some sampleInfo, none, []⟩
        [AppEvent.tick, AppEvent.pollErr]).toasts.length = 1 ∧
    (runApp ⟨[sampleInfo], false, none, true, 0, some sampleInfo, none, []⟩
        [AppEvent.tick, AppEvent.pollErr, AppEvent.tick,
         AppEvent.pollErr]).toasts.length = 1 := by
  decide

/-- C6 amended: a failed poll leaves the displayed roster and the selection
exactly unchanged; it emits exactly one Connection Error notification when the
stored error changes (in particular on the first failure of a streak, or after
an intervening success), and none when the previous effect already saw the
same failure message — consecutive identical failures notify only once. -/
theorem poll_failure_keeps_roster_toast_on_change (st : AppState)
    (hin : st.inflight > 0) :
    (appStep st AppEvent.pollErr).crawls = st.crawls ∧
    (appStep st AppEvent.pollErr).selectedCrawl = st.selectedCrawl ∧
    (appStep st AppEvent.pollErr).toasts = st.toasts ++
      (if st.lastEffectError = some "Failed to fetch crawl data" then []
       else [⟨ToastKind.error, "Connection Error", "Failed to fetch crawl data"⟩]) := by
  have hmain : appStep st AppEvent.pollErr =
      errorEffect { st with inflight := st.inflight - 1,
                            error := some "Failed to fetch crawl data",
                            loading := false } := by
    simp only [appStep, if_pos hin]
  rw [hmain]
  unfold errorEffect
  by_cases hle : st.lastEffectError = some "Failed to fetch crawl data"
  · rw [if_neg (fun hcon => hcon hle.symm), if_pos hle]
    exact ⟨rfl, rfl, by simp⟩
  · rw [if_pos (fun hcon => hle hcon.symm), if_neg hle]
    exact ⟨rfl, rfl, rfl⟩

/-- Witness for the amended C6 at a state with one in-flight fetch and no
previously reported error: the failure emits exactly one toast and leaves the
roster and selection unchanged. -/
theorem poll_failure_keeps_roster_toast_on_change_witness :
    (appStep ⟨[sampleInfo], false, none, true, 1, some sampleInfo, none, []⟩
      AppEvent.pollErr).crawls = [sampleInfo] ∧
    (appStep ⟨[sampleInfo], false, none, true, 1, some sampleInfo, none, []⟩
      AppEvent.pollErr).selectedCrawl = some sampleInfo ∧
    (appStep ⟨[sampleInfo], false, none, true, 1, some sampleInfo, none, []⟩
      AppEvent.pollErr).toasts = [] ++
      (if (none : Option String) = some "Failed to fetch crawl data" then []
       else [⟨ToastKind.error, "Connection Error", "Failed to fetch crawl data"⟩]) :=
  poll_failure_keeps_roster_toast_on_change _ (by decide)

end Ringer
